import Mathlib

/-!
Verification of the idle-detection and gated-action engine of glmctl
(`src/utils/ai_idle_monitor.py` and `src/utils/claude_idle_monitor.py`).

Modelling conventions:
* Python strings are `List Char`.
* Wall-clock instants are `Nat`, counted in seconds since the epoch;
  `datetime.now().minute` becomes `now / 60 % 60`, and
  `timedelta(minutes = m)` becomes `60 * m` seconds.
* `timedelta` subtraction of two instants is integer subtraction in `ℤ`
  (Python durations may be negative).
* Uncaught Python exceptions are modelled with `Except Unit`; a function
  that cannot raise is total.
-/

/-- Embeds Python `s.replace("-", "/")` for the single-character pattern:
every `-` becomes `/`, all other characters are kept. -/
def replaceDashSlash (s : List Char) : List Char :=
  s.map fun c => if c = '-' then '/' else c

/-- `BaseAIMonitor.decode_project_id` / `ClaudeIdleMonitor.decode_project_id`:
if the project id starts with `-`, return `"/" + project_id[1:].replace("-", "/")`,
otherwise return it unchanged. -/
def decode_project_id (project_id : List Char) : List Char :=
  if project_id.head? = some '-' then
    '/' :: replaceDashSlash (project_id.drop 1)
  else
    project_id

/-- Modelled from the spec (§4.1) and the source docstring of
`decode_project_id`: the external AI system encodes a project path by
replacing each path separator `/` with the substitution character `-`
(so `/Users/dj/project` becomes `-Users-dj-project`). -/
def encode_project_path (p : List Char) : List Char :=
  p.map fun c => if c = '/' then '-' else c

/-- One line of `history.jsonl`, classified by what Python does with it in
`get_last_prompt`: `blank` strips to the empty string; `malformed` makes
`json.loads` raise; `record d` parses to a dict whose `data.get('display')`
is `d` (`none` when the key is missing or null). -/
inductive HistoryLine
  | blank
  | malformed (raw : List Char)
  | record (display : Option (List Char))
deriving DecidableEq

/-- The `for line in reversed(lines)` loop of `get_last_prompt`, applied to the
already-reversed list: skip blank lines; on the first non-blank line, either
`json.loads` raises (the outer `except Exception` swallows it, so the whole
call returns `None`) or the line parses and its `display` field is returned. -/
def scanBack : List HistoryLine → Option (List Char)
  | [] => none
  | HistoryLine.blank :: rest => scanBack rest
  | HistoryLine.malformed _ :: _ => none
  | HistoryLine.record d :: _ => d

/-- `BaseAIMonitor.get_last_prompt` / `ClaudeIdleMonitor.get_last_prompt`:
`none` when `history.jsonl` does not exist, otherwise the backward scan over
its lines; all exceptions are swallowed and become `None`. -/
def get_last_prompt (file : Option (List HistoryLine)) : Option (List Char) :=
  match file with
  | none => none
  | some lines => scanBack lines.reverse

/-- A `stat` call on a candidate file: `Except.ok m` returns the mtime `m`
(seconds); `Except.error ()` is a raised `OSError` (permission denied, or the
path vanished between being listed and being stat-ed). -/
abbrev StatResult := Except Unit Nat

/-- The running accumulator of `get_latest_modification_time`:
`latest_time` / `latest_file` track the overall latest candidate,
`latest_project_time` / `latest_project_file` the latest under `projects/`. -/
structure ScanState where
  latest_time : Option Nat
  latest_file : Option (List Char)
  latest_project_time : Option Nat
  latest_project_file : Option (List Char)
deriving DecidableEq

/-- The Python condition `latest is None or mtime > latest`. -/
def newer (cur : Option Nat) (mtime : Nat) : Bool :=
  match cur with
  | none => true
  | some t => t < mtime

/-- The `for jsonl_file in self.projects_dir.rglob("*.jsonl")` loop of
`get_latest_modification_time`: stat each candidate (a raised exception
propagates — the loop body has no try/except), update the overall latest on
`mtime > latest_time`, and the latest project file on
`mtime > latest_project_time`. -/
def scanProjects (acc : ScanState) :
    List (List Char × StatResult) → Except Unit ScanState
  | [] => Except.ok acc
  | (path, statRes) :: rest =>
    match statRes with
    | Except.error e => Except.error e
    | Except.ok mtime =>
      let acc1 :=
        if newer acc.latest_time mtime then
          { acc with latest_time := some mtime, latest_file := some path }
        else acc
      let acc2 :=
        if newer acc1.latest_project_time mtime then
          { acc1 with latest_project_time := some mtime,
                      latest_project_file := some path }
        else acc1
      scanProjects acc2 rest

/-- The `if self.history_file.exists(): ...` step of
`get_latest_modification_time`, starting from the all-`None` accumulator:
`none` models the file not existing, `some` its stat result (which may
itself raise when the file vanished between `exists()` and `stat()`). -/
def historyStep (historyPath : List Char) :
    Option StatResult → Except Unit ScanState
  | none => Except.ok ⟨none, none, none, none⟩
  | some (Except.error e) => Except.error e
  | some (Except.ok mtime) =>
    Except.ok
      (if newer (none : Option Nat) mtime then
        ⟨some mtime, some historyPath, none, none⟩
      else ⟨none, none, none, none⟩)

/-- `BaseAIMonitor.get_latest_modification_time` /
`ClaudeIdleMonitor.get_latest_modification_time`: the history step followed
by the projects scan, then `if latest_time and latest_file` — not-`None` of
both (a `datetime` is always truthy and the tracked paths are non-empty
strings). `projectFiles` is the list of `(path, stat result)` candidates
produced by `rglob`. A raised stat propagates out of the whole call: the
function has no exception handler. -/
def get_latest_modification_time (history : Option StatResult)
    (historyPath : List Char) (projectFiles : List (List Char × StatResult)) :
    Except Unit (Option (Nat × List Char × Option (List Char))) :=
  match historyStep historyPath history with
  | Except.error e => Except.error e
  | Except.ok acc1 =>
    match scanProjects acc1 projectFiles with
    | Except.error e => Except.error e
    | Except.ok acc =>
      match acc.latest_time, acc.latest_file with
      | some t, some f => Except.ok (some (t, f, acc.latest_project_file))
      | _, _ => Except.ok none

/-- An entry of `execution_logs`.  The Python code appends formatted
f-strings; each constructor stands for one format, carrying the data that
varies (timestamps are display-only and omitted). -/
inductive LogEntry
  | executing
  | runError (ename emsg : List Char)
  | completedOk
  | failedReturncode (rc : Int)
  | stderrOut (emsg : List Char)
  | timedOutMsg
  | notFoundMsg
  | execError (ename emsg : List Char)
  | claudeExecuting
  | claudeCompleted
deriving DecidableEq

/-- `self.max_logs = 5`. -/
def max_logs : Nat := 5

/-- `add_log`: append the message; if the buffer now exceeds `max_logs`,
`pop(0)` the oldest entry. -/
def add_log (logs : List LogEntry) (e : LogEntry) : List LogEntry :=
  let l := logs ++ [e]
  if max_logs < l.length then l.drop 1 else l

/-- The mutable per-monitor state shared by `BaseAIMonitor` and
`ClaudeIdleMonitor` (`idle_threshold` is in minutes, as in the source). -/
structure MonitorState where
  last_activity_time : Option Nat
  last_activity_file : Option (List Char)
  last_activity_project_file : Option (List Char)
  last_prompt : Option (List Char)
  last_check_time : Option Nat
  execution_logs : List LogEntry
  idle_threshold : Nat
deriving DecidableEq

/-- `is_idle`: false when no activity was ever observed; otherwise
`datetime.now() - self.last_activity_time >= timedelta(minutes=self.idle_threshold)`,
i.e. `now - t ≥ 60 * idle_threshold` in seconds (the subtraction in `ℤ`,
mirroring `timedelta`). -/
def is_idle (st : MonitorState) (now : Nat) : Bool :=
  match st.last_activity_time with
  | none => false
  | some t => decide ((now : ℤ) - (t : ℤ) ≥ 60 * (st.idle_threshold : ℤ))

/-- `get_idle_duration`: `None` when no activity was ever observed, else
`datetime.now() - self.last_activity_time`. -/
def get_idle_duration (st : MonitorState) (now : Nat) : Option ℤ :=
  match st.last_activity_time with
  | none => none
  | some t => some ((now : ℤ) - (t : ℤ))

/-- `datetime.now().minute` for an epoch-seconds instant. -/
def minuteOf (now : Nat) : Nat := now / 60 % 60

/-- Modelled from the spec (§3): the window key of an instant is wall-clock
time truncated to the hour.  The source keeps no such key; the definition is
needed to state the spec's at-most-once-per-window property. -/
def windowKey (now : Nat) : Nat := now / 3600

/-- The gate decision of `BaseAIMonitor.run_if_idle` /
`ClaudeIdleMonitor.run_claude`: return early (no firing) unless idle, then
return early unless `now.minute == 0`; otherwise fire. -/
def run_if_idle_fires (st : MonitorState) (now : Nat) : Bool :=
  if is_idle st now = false then false
  else if minuteOf now ≠ 0 then false
  else true

/-- The outcome of the `subprocess.run(["claude", "-p", ...])` call inside
`ClaudeMonitor.execute_when_idle`: a completed process with its returncode
and stderr, a `TimeoutExpired`, a `FileNotFoundError`, or any other raised
exception with its type name and message. -/
inductive SubprocessOutcome
  | completed (rc : Int) (stderr : List Char)
  | timedOut
  | notFound
  | raised (ename emsg : List Char)
deriving DecidableEq

/-- `ClaudeMonitor.execute_when_idle` (ai_idle_monitor): the log entries its
try/except appends for each subprocess outcome.  Every branch is caught and
logged: success; non-zero returncode (plus the first 200 chars of stderr when
non-empty); timeout; command not found; any other exception with its message
truncated to 100 chars.  Nothing is re-raised. -/
def execute_when_idle_logs (outcome : SubprocessOutcome) : List LogEntry :=
  match outcome with
  | SubprocessOutcome.completed rc stderr =>
    if rc = 0 then [LogEntry.completedOk]
    else if stderr ≠ [] then
      [LogEntry.failedReturncode rc, LogEntry.stderrOut (stderr.take 200)]
    else [LogEntry.failedReturncode rc]
  | SubprocessOutcome.timedOut => [LogEntry.timedOutMsg]
  | SubprocessOutcome.notFound => [LogEntry.notFoundMsg]
  | SubprocessOutcome.raised ename emsg =>
    [LogEntry.execError ename (emsg.take 100)]

/-- The `timeout=` argument of the `subprocess.run` call in
`ClaudeMonitor.execute_when_idle` (ai_idle_monitor): 300 seconds. -/
def claude_subprocess_timeout : Option Nat := some 300

/-- The `timeout=` argument of the `subprocess.run` call in
`ClaudeIdleMonitor.run_claude` (claude_idle_monitor): `None`. -/
def run_claude_subprocess_timeout : Option Nat := none

/-- `BaseAIMonitor.run_if_idle` (ai_idle_monitor): return unchanged unless
idle and at the top of the hour; otherwise log the "Executing" line, run
`execute_when_idle` (`action` is its result: the log entries it appended, or
the exception it raised), and convert any raised exception into a single
truncated `Error:` log line. -/
def run_if_idle (st : MonitorState) (now : Nat)
    (action : Except (List Char × List Char) (List LogEntry)) : MonitorState :=
  if is_idle st now = false then st
  else if minuteOf now ≠ 0 then st
  else
    let logs1 := add_log st.execution_logs LogEntry.executing
    match action with
    | Except.ok entries =>
      { st with execution_logs := entries.foldl add_log logs1 }
    | Except.error (ename, emsg) =>
      { st with execution_logs :=
          add_log logs1 (LogEntry.runError ename (emsg.take 100)) }

/-- `ClaudeIdleMonitor.run_claude` (claude_idle_monitor): return unchanged
unless idle and at the top of the hour; otherwise log the "Executing claude"
line, run the subprocess (`outcome`), log "Execution completed" on success,
and on any exception do nothing (`except Exception: pass`). -/
def run_claude (st : MonitorState) (now : Nat)
    (outcome : Except (List Char × List Char) Unit) : MonitorState :=
  if is_idle st now = false then st
  else if minuteOf now ≠ 0 then st
  else
    let logs1 := add_log st.execution_logs LogEntry.claudeExecuting
    match outcome with
    | Except.ok _ =>
      { st with execution_logs := add_log logs1 LogEntry.claudeCompleted }
    | Except.error _ => { st with execution_logs := logs1 }

/-- `check_and_update_activity`: record the check time, poll
`get_latest_modification_time` (a raised stat propagates — no handler here
either), overwrite the three activity fields only when a record came back,
and refresh `last_prompt` via `get_last_prompt`. -/
def check_and_update_activity (st : MonitorState) (now : Nat)
    (history : Option StatResult) (historyPath : List Char)
    (projectFiles : List (List Char × StatResult))
    (historyLines : Option (List HistoryLine)) : Except Unit MonitorState :=
  let st1 := { st with last_check_time := some now }
  match get_latest_modification_time history historyPath projectFiles with
  | Except.error e => Except.error e
  | Except.ok result =>
    let st2 := match result with
      | some (t, f, pf) =>
        { st1 with last_activity_time := some t, last_activity_file := some f,
                   last_activity_project_file := pf }
      | none => st1
    Except.ok { st2 with last_prompt := get_last_prompt historyLines }

/-- A monitor that has never observed any activity. -/
def coldState : MonitorState :=
  { last_activity_time := none, last_activity_file := none,
    last_activity_project_file := none, last_prompt := none,
    last_check_time := none, execution_logs := [], idle_threshold := 10 }

/-- A monitor whose last observed activity was at instant 0, with the default
10-minute idle threshold: idle at every instant from 600 s on. -/
def idleState : MonitorState :=
  { coldState with last_activity_time := some 0 }

/-! ## Claim theorems -/

/-- C8: encoding `/Users/dj/project` with the documented substitution scheme
(each `/` becomes `-`, giving the leading marker) and applying
`decode_project_id` reproduces the original string exactly; and every input
that does not begin with the marker character is returned unchanged. -/
theorem c8_decode_roundtrip :
    decode_project_id (encode_project_path "/Users/dj/project".data)
      = "/Users/dj/project".data
  ∧ encode_project_path "/Users/dj/project".data = "-Users-dj-project".data
  ∧ ∀ s : List Char, s.head? ≠ some '-' → decode_project_id s = s := by
  refine ⟨by decide, by decide, ?_⟩
  intro s h
  simp [decode_project_id, h]

theorem c8_decode_roundtrip_witness :
    decode_project_id "relative".data = "relative".data :=
  c8_decode_roundtrip.2.2 "relative".data (by decide)

/-- Every character surviving `replaceDashSlash` differs from `-`. -/
theorem replaceDashSlash_no_dash (c : Char) :
    (if c = '-' then '/' else c) ≠ '-' := by
  by_cases h : c = '-' <;> simp [h]

/-- Mapping `-` to `/` changes any list containing a `-`. -/
theorem map_dash_to_slash_ne {l : List Char} (h : '-' ∈ l) :
    l.map (fun c => if c = '-' then '/' else c) ≠ l := by
  induction l with
  | nil => cases h
  | cons c rest ih =>
    by_cases hc : c = '-'
    · subst hc
      simp only [List.map_cons, if_pos rfl]
      intro heq
      exact absurd (List.cons.inj heq).1 (by decide)
    · have hmem : '-' ∈ rest := by
        rcases List.mem_cons.mp h with h1 | h1
        · exact absurd h1.symm hc
        · exact h1
      simp only [List.map_cons, if_neg hc]
      intro heq
      exact ih hmem (List.cons.inj heq).2


/-- Encoding pushed through a cons whose head is the path separator. -/
theorem encode_cons_slash (rest : List Char) :
    encode_project_path ('/' :: rest)
      = '-' :: rest.map (fun c => if c = '/' then '-' else c) := rfl

/-- Decoding pushed through a cons whose head is the marker. -/
theorem decode_cons_dash (l : List Char) :
    decode_project_id ('-' :: l) = '/' :: replaceDashSlash l := rfl

/-- C10: `decode_project_id` is not injective on marker-prefixed inputs
(`-a-b` and `-a/b` both decode to `/a/b`); for every absolute original path
containing a literal hyphen, encode-then-decode does not reproduce the
original; and decoding a marker-prefixed id maps every occurrence of the
substitution character to the path separator, so no dash survives. -/
theorem c10_decode_not_injective :
    (decode_project_id "-a-b".data = decode_project_id "-a/b".data
      ∧ "-a-b".data ≠ "-a/b".data)
  ∧ (∀ p : List Char, p.head? = some '/' → '-' ∈ p →
      decode_project_id (encode_project_path p) ≠ p)
  ∧ (∀ s : List Char, s.head? = some '-' → '-' ∉ decode_project_id s) := by
  refine ⟨⟨by decide, by decide⟩, ?_, ?_⟩
  · intro p hhead hdash
    cases p with
    | nil => cases hhead
    | cons c rest =>
      have hc : c = '/' := by simpa using hhead
      subst hc
      have hrest : '-' ∈ rest := by
        rcases List.mem_cons.mp hdash with h1 | h1
        · exact absurd h1 (by decide)
        · exact h1
      rw [encode_cons_slash, decode_cons_dash]
      unfold replaceDashSlash
      rw [List.map_map]
      intro heq
      have htail :
          rest.map ((fun c => if c = '-' then '/' else c)
            ∘ fun c => if c = '/' then '-' else c) = rest :=
        (List.cons.inj heq).2
      have hcomp :
          rest.map ((fun c => if c = '-' then '/' else c)
            ∘ fun c => if c = '/' then '-' else c)
            = rest.map (fun c => if c = '-' then '/' else c) := by
        apply List.map_congr_left
        intro a _
        by_cases ha : a = '/'
        · subst ha; rfl
        · by_cases hb : a = '-'
          · subst hb; rfl
          · simp [Function.comp, ha, hb]
      rw [hcomp] at htail
      exact map_dash_to_slash_ne hrest htail
  · intro s hhead hmem
    cases s with
    | nil => cases hhead
    | cons c rest =>
      have hc : c = '-' := by simpa using hhead
      subst hc
      rw [decode_cons_dash] at hmem
      rcases List.mem_cons.mp hmem with h1 | h1
      · exact absurd h1 (by decide)
      · rcases List.mem_map.mp h1 with ⟨c0, _, hc0⟩
        exact replaceDashSlash_no_dash c0 hc0

theorem c10_decode_not_injective_witness :
    decode_project_id (encode_project_path "/a-b".data) ≠ "/a-b".data
  ∧ '-' ∉ decode_project_id "-a-b".data :=
  ⟨c10_decode_not_injective.2.1 "/a-b".data (by decide) (by decide),
   c10_decode_not_injective.2.2 "-a-b".data (by decide)⟩

/-- C4: a tracker in which no activity has ever been observed is never idle,
for every instant `now`, and its idle duration is absent. -/
theorem c4_cold_start (st : MonitorState)
    (h : st.last_activity_time = none) (now : Nat) :
    is_idle st now = false ∧ get_idle_duration st now = none := by
  refine ⟨?_, ?_⟩
  · simp [is_idle, h]
  · simp [get_idle_duration, h]

theorem c4_cold_start_witness :
    is_idle coldState 1000000000 = false
  ∧ get_idle_duration coldState 1000000000 = none :=
  c4_cold_start coldState rfl 1000000000

/-- C3: for a tracker with an observed activity at `t` and threshold `T`
minutes, `is_idle now` holds iff `now - t ≥ 60 * T` seconds; an elapsed
duration exactly equal to the threshold counts as idle, while one unit less
does not. -/
theorem c3_idle_threshold_boundary (st : MonitorState) (t : Nat)
    (h : st.last_activity_time = some t) (now : Nat) :
    (is_idle st now = true
      ↔ (now : ℤ) - (t : ℤ) ≥ 60 * (st.idle_threshold : ℤ))
  ∧ is_idle st (t + 60 * st.idle_threshold) = true
  ∧ (0 < st.idle_threshold →
      is_idle st (t + 60 * st.idle_threshold - 1) = false) := by
  refine ⟨?_, ?_, fun hpos => ?_⟩
  · simp [is_idle, h]
  · simp only [is_idle, h]
    simp only [decide_eq_true_eq, ge_iff_le]
    omega
  · simp only [is_idle, h]
    simp only [decide_eq_false_iff_not, not_le, ge_iff_le]
    omega

theorem c3_idle_threshold_boundary_witness :
    is_idle idleState (0 + 60 * idleState.idle_threshold) = true
  ∧ is_idle idleState (0 + 60 * idleState.idle_threshold - 1) = false :=
  ⟨(c3_idle_threshold_boundary idleState 0 rfl 0).2.1,
   (c3_idle_threshold_boundary idleState 0 rfl 0).2.2 (by decide)⟩

/-- C2: whenever the tracker reports the agent as not idle, neither gate
fires and neither monitor's state changes, regardless of the minute value of
`now` and of what the action would have done. -/
theorem c2_no_fire_while_active (st : MonitorState) (now : Nat)
    (h : is_idle st now = false)
    (action : Except (List Char × List Char) (List LogEntry))
    (outcome : Except (List Char × List Char) Unit) :
    run_if_idle_fires st now = false
  ∧ run_if_idle st now action = st
  ∧ run_claude st now outcome = st := by
  refine ⟨?_, ?_, ?_⟩ <;>
    simp [run_if_idle_fires, run_if_idle, run_claude, h]

theorem c2_no_fire_while_active_witness :
    run_if_idle_fires coldState 3600 = false
  ∧ run_if_idle coldState 3600 (Except.ok []) = coldState
  ∧ run_claude coldState 3600 (Except.ok ()) = coldState :=
  c2_no_fire_while_active coldState 3600 rfl (Except.ok []) (Except.ok ())

/-- C9: a refresh whose activity poll returns no record leaves the three
last-activity fields unchanged and still updates `last_check_time` to the
current instant (and the refresh itself succeeds). -/
theorem c9_poll_none_frame (st : MonitorState) (now : Nat)
    (history : Option StatResult) (historyPath : List Char)
    (projectFiles : List (List Char × StatResult))
    (historyLines : Option (List HistoryLine))
    (hpoll : get_latest_modification_time history historyPath projectFiles
      = Except.ok none) :
    ∃ st2, check_and_update_activity st now history historyPath projectFiles
        historyLines = Except.ok st2
      ∧ st2.last_activity_time = st.last_activity_time
      ∧ st2.last_activity_file = st.last_activity_file
      ∧ st2.last_activity_project_file = st.last_activity_project_file
      ∧ st2.last_check_time = some now := by
  unfold check_and_update_activity
  rw [hpoll]
  exact ⟨_, rfl, rfl, rfl, rfl, rfl⟩

theorem c9_poll_none_frame_witness :
    ∃ st2, check_and_update_activity idleState 50 none "h".data [] none
        = Except.ok st2
      ∧ st2.last_activity_time = idleState.last_activity_time
      ∧ st2.last_activity_file = idleState.last_activity_file
      ∧ st2.last_activity_project_file = idleState.last_activity_project_file
      ∧ st2.last_check_time = some 50 :=
  c9_poll_none_frame idleState 50 none "h".data [] none rfl

/-- C1 fails on the code: the monitors record no fired-window key, so with
the agent continuously idle, two distinct one-second-resolution evaluation
instants inside the same hourly window both yield a fire decision. -/
theorem c1_counterexample :
    run_if_idle_fires idleState 3600 = true
  ∧ run_if_idle_fires idleState 3601 = true
  ∧ windowKey 3600 = windowKey 3601
  ∧ (3600 : Nat) ≠ 3601 := by decide

/-- C1 (amended): while idle, the gate fires exactly at the instants whose
minute component is zero — at one-second resolution through an hourly window
that is each of the first 60 seconds, not exactly one evaluation; no window
key is recorded, and at-most-once per window comes only from the scheduler
invoking the gate once per hour. -/
theorem c1_fires_throughout_zero_minute (st : MonitorState) (h s : Nat)
    (hs : s < 3600) (hidle : is_idle st (3600 * h + s) = true) :
    run_if_idle_fires st (3600 * h + s) = true ↔ s < 60 := by
  have hm : minuteOf (3600 * h + s) = 0 ↔ s < 60 := by
    unfold minuteOf
    omega
  by_cases hs60 : s < 60 <;>
    simp [run_if_idle_fires, hidle, hm, hs60]

theorem c1_fires_throughout_zero_minute_witness :
    (run_if_idle_fires idleState (3600 * 1 + 30) = true ↔ 30 < 60)
  ∧ (run_if_idle_fires idleState (3600 * 1 + 90) = true ↔ 90 < 60) :=
  ⟨c1_fires_throughout_zero_minute idleState 1 30 (by decide) (by decide),
   c1_fires_throughout_zero_minute idleState 1 90 (by decide) (by decide)⟩

/-- `scanBack` skips any leading run of blank lines. -/
theorem scanBack_blanks (bl rest : List HistoryLine)
    (hb : ∀ l ∈ bl, l = HistoryLine.blank) :
    scanBack (bl ++ rest) = scanBack rest := by
  induction bl with
  | nil => rfl
  | cons x xs ih =>
    have hx : x = HistoryLine.blank := hb x (List.mem_cons_self x xs)
    subst hx
    exact ih fun l hl => hb l (List.mem_cons_of_mem _ hl)

/-- C7 fails on the code: when the last non-empty line is malformed the
whole lookup returns `none`, even though an earlier valid line with display
text `a` exists — that line alone would have been found. -/
theorem c7_counterexample :
    get_last_prompt (some [HistoryLine.record (some "a".data),
      HistoryLine.malformed "oops".data]) = none
  ∧ get_last_prompt (some [HistoryLine.record (some "a".data)])
      = some "a".data := by
  refine ⟨?_, ?_⟩ <;> decide

/-- C7 (amended): the lookup scans backward only to the last non-empty line
and returns its display field when it parses; a malformed last non-empty
line makes the whole lookup yield `none` without consulting earlier lines;
absence of the source, or of any non-empty line, also yields `none`; no
case is an error. -/
theorem c7_last_line_only (pre blanks : List HistoryLine) (lst : HistoryLine)
    (hb : ∀ l ∈ blanks, l = HistoryLine.blank)
    (hl : lst ≠ HistoryLine.blank) :
    get_last_prompt none = none
  ∧ (∀ ls : List HistoryLine, (∀ l ∈ ls, l = HistoryLine.blank) →
      get_last_prompt (some ls) = none)
  ∧ get_last_prompt (some (pre ++ lst :: blanks))
      = (match lst with
         | HistoryLine.record d => d
         | _ => none) := by
  refine ⟨rfl, ?_, ?_⟩
  · intro ls hls
    show scanBack ls.reverse = none
    have : scanBack (ls.reverse ++ []) = scanBack [] :=
      scanBack_blanks ls.reverse [] fun l hl0 =>
        hls l (List.mem_reverse.mp hl0)
    simpa using this
  · show scanBack (pre ++ lst :: blanks).reverse
      = (match lst with
         | HistoryLine.record d => d
         | _ => none)
    rw [List.reverse_append, List.reverse_cons, List.append_assoc]
    rw [scanBack_blanks blanks.reverse ([lst] ++ pre.reverse)
      (fun l hl0 => hb l (List.mem_reverse.mp hl0))]
    cases lst with
    | blank => exact absurd rfl hl
    | malformed raw => rfl
    | record d => rfl

theorem c7_last_line_only_witness :
    get_last_prompt (some ([HistoryLine.malformed "x".data]
      ++ HistoryLine.record (some "hi".data) :: [HistoryLine.blank]))
      = some "hi".data :=
  (c7_last_line_only [HistoryLine.malformed "x".data] [HistoryLine.blank]
    (HistoryLine.record (some "hi".data)) (by decide) (by decide)).2.2

/-- The appended message survives `add_log`: only the oldest entry is ever
evicted, never the one just appended. -/
theorem add_log_mem (l : List LogEntry) (e : LogEntry) : e ∈ add_log l e := by
  show e ∈ if max_logs < (l ++ [e]).length then (l ++ [e]).drop 1 else l ++ [e]
  split
  · cases l with
    | nil => simp_all [max_logs]
    | cons x xs => simp
  · simp

/-- C6 fails on the code: in `ClaudeIdleMonitor.run_claude` a failing
invocation (any raised exception) leaves the log with only the pre-logged
"Executing" line — no failure line is appended — and the `subprocess.run`
call passes `timeout=None`, so the invocation is not bounded by a timeout. -/
theorem c6_counterexample :
    (run_claude idleState 3600
      (Except.error ("CalledProcessError".data, "boom".data))).execution_logs
      = [LogEntry.claudeExecuting]
  ∧ run_claude_subprocess_timeout = none := by
  refine ⟨?_, rfl⟩
  decide

/-- C6 (amended): in the multi-monitor variant every failure is caught and
logged — an exception escaping `execute_when_idle` becomes one truncated
`Error:` line in the log buffer, `ClaudeMonitor.execute_when_idle` itself
appends at least one line for every subprocess outcome, and its subprocess
call is bounded by a 300-second timeout; in the single-monitor variant the
failure is caught but silently discarded and the call has no timeout. -/
theorem c6_failures_logged (st : MonitorState) (now : Nat)
    (ename emsg : List Char) (o : SubprocessOutcome)
    (hfire : run_if_idle_fires st now = true) :
    LogEntry.runError ename (emsg.take 100) ∈
      (run_if_idle st now (Except.error (ename, emsg))).execution_logs
  ∧ execute_when_idle_logs o ≠ []
  ∧ claude_subprocess_timeout = some 300
  ∧ run_claude_subprocess_timeout = none := by
  have h1 : ¬ is_idle st now = false := by
    intro hc
    rw [run_if_idle_fires, if_pos hc] at hfire
    exact Bool.false_ne_true hfire
  have h2 : ¬ minuteOf now ≠ 0 := by
    intro hc
    rw [run_if_idle_fires, if_neg h1, if_pos hc] at hfire
    exact Bool.false_ne_true hfire
  refine ⟨?_, ?_, rfl, rfl⟩
  · rw [run_if_idle, if_neg h1, if_neg h2]
    exact add_log_mem _ _
  · cases o with
    | completed rc stderr =>
      by_cases hrc : rc = 0
      · simp [execute_when_idle_logs, hrc]
      · by_cases hse : stderr = []
        · simp [execute_when_idle_logs, hrc, hse]
        · simp [execute_when_idle_logs, hrc, hse]
    | timedOut => simp [execute_when_idle_logs]
    | notFound => simp [execute_when_idle_logs]
    | raised n m => simp [execute_when_idle_logs]

theorem c6_failures_logged_witness :
    LogEntry.runError "RuntimeError".data ("boom".data.take 100) ∈
      (run_if_idle idleState 3600
        (Except.error ("RuntimeError".data, "boom".data))).execution_logs
  ∧ execute_when_idle_logs SubprocessOutcome.timedOut ≠ []
  ∧ claude_subprocess_timeout = some 300
  ∧ run_claude_subprocess_timeout = none :=
  c6_failures_logged idleState 3600 "RuntimeError".data "boom".data
    SubprocessOutcome.timedOut (by decide)

/-- Loop invariant of the latest-candidate fold: either nothing has been
seen and nothing is recorded, or the recorded `(file, time)` pair is one of
the seen candidates and its time bounds all of their times. -/
def LatestInv (acc : ScanState) (cands : List (List Char × Nat)) : Prop :=
  (acc.latest_time = none ∧ acc.latest_file = none ∧ cands = [])
  ∨ (∃ t f, acc.latest_time = some t ∧ acc.latest_file = some f
      ∧ (f, t) ∈ cands ∧ ∀ c ∈ cands, c.2 ≤ t)

/-- One overall-latest update step preserves the invariant, with the new
candidate appended to the seen list. -/
theorem latestInv_step (acc : ScanState) (cands : List (List Char × Nat))
    (hinv : LatestInv acc cands) (path : List Char) (m : Nat) :
    LatestInv
      (if newer acc.latest_time m then
        { acc with latest_time := some m, latest_file := some path }
      else acc)
      (cands ++ [(path, m)]) := by
  rcases hinv with ⟨ht, hf, hc⟩ | ⟨t, f, ht, hf, hmem, hbound⟩
  · subst hc
    rw [ht]
    simp only [newer, if_pos]
    refine Or.inr ⟨m, path, rfl, rfl, by simp, ?_⟩
    intro c hcm
    simp only [List.nil_append, List.mem_singleton] at hcm
    subst hcm
    exact le_refl m
  · rw [ht]
    by_cases htm : t < m
    · have hn : newer (some t) m = true := by simp [newer, htm]
      simp only [hn, if_true]
      refine Or.inr ⟨m, path, rfl, rfl, by simp, ?_⟩
      intro c hcm
      rcases List.mem_append.mp hcm with h1 | h1
      · exact le_of_lt (lt_of_le_of_lt (hbound c h1) htm)
      · rw [List.mem_singleton] at h1
        subst h1
        exact le_refl m
    · have hn : newer (some t) m = false := by simp [newer, htm]
      simp only [hn, Bool.false_eq_true, if_false]
      refine Or.inr ⟨t, f, ht, hf, List.mem_append_left _ hmem, ?_⟩
      intro c hcm
      rcases List.mem_append.mp hcm with h1 | h1
      · exact hbound c h1
      · rw [List.mem_singleton] at h1
        subst h1
        exact le_of_not_lt htm
  
/-- The latest-project-file update touches neither `latest_time` nor
`latest_file`, so it preserves the invariant. -/
theorem latestInv_project_update (acc : ScanState) (path : List Char)
    (m : Nat) (cands : List (List Char × Nat)) (h : LatestInv acc cands) :
    LatestInv
      (if newer acc.latest_project_time m then
        { acc with latest_project_time := some m,
                   latest_project_file := some path }
      else acc) cands := by
  split
  · rcases h with ⟨ht, hf, hc⟩ | ⟨t, f, ht, hf, hmem, hbound⟩
    · exact Or.inl ⟨ht, hf, hc⟩
    · exact Or.inr ⟨t, f, ht, hf, hmem, hbound⟩
  · exact h

/-- Scanning a list of readable candidates never raises and maintains the
invariant over all candidates seen so far. -/
theorem scanProjects_ok (pfiles : List (List Char × Nat)) :
    ∀ (acc : ScanState) (cands : List (List Char × Nat)),
    LatestInv acc cands →
    ∃ acc2, scanProjects acc (pfiles.map fun p => (p.1, Except.ok p.2))
        = Except.ok acc2
      ∧ LatestInv acc2 (cands ++ pfiles) := by
  induction pfiles with
  | nil =>
    intro acc cands h
    exact ⟨acc, rfl, by simpa using h⟩
  | cons p rest ih =>
    intro acc cands h
    obtain ⟨path, m⟩ := p
    have hstep := latestInv_step acc cands h path m
    have hstep2 := latestInv_project_update _ path m _ hstep
    obtain ⟨acc2, hrun, hinv2⟩ := ih _ (cands ++ [(path, m)]) hstep2
    refine ⟨acc2, ?_, ?_⟩
    · simp only [List.map_cons, scanProjects]
      exact hrun
    · rw [List.append_assoc] at hinv2
      simpa using hinv2

/-- The history step never raises on a readable (or absent) history file and
establishes the invariant over the history candidate alone. -/
theorem historyStep_ok_inv (historyPath : List Char) (hres : Option Nat) :
    ∃ acc1, historyStep historyPath (hres.map Except.ok) = Except.ok acc1
      ∧ LatestInv acc1
          (match hres with
           | none => []
           | some m => [(historyPath, m)]) := by
  cases hres with
  | none => exact ⟨_, rfl, Or.inl ⟨rfl, rfl, rfl⟩⟩
  | some m =>
    exact ⟨_, rfl, Or.inr ⟨m, historyPath, rfl, rfl, by simp, by simp⟩⟩

/-- The candidate files of one poll: `history.jsonl` when it exists, then
the project files, with their modification times. -/
def candsOf (historyPath : List Char) (hres : Option Nat)
    (pfiles : List (List Char × Nat)) : List (List Char × Nat) :=
  (match hres with
   | none => []
   | some m => [(historyPath, m)]) ++ pfiles

/-- C5 fails on the code: with three readable candidates of distinct mtimes
the poll returns the record with the maximum timestamp, but adding a fourth
unreadable candidate makes the whole poll raise — the error is not swallowed
and the result changes. -/
theorem c5_counterexample :
    get_latest_modification_time none "h".data
      [("a".data, Except.ok 1), ("b".data, Except.ok 3),
       ("c".data, Except.ok 2)]
      = Except.ok (some (3, "b".data, some "b".data))
  ∧ get_latest_modification_time none "h".data
      [("a".data, Except.ok 1), ("b".data, Except.ok 3),
       ("c".data, Except.ok 2), ("d".data, Except.error ())]
      = Except.error () := ⟨rfl, rfl⟩

/-- C5 (amended): when every candidate stats successfully, the poll never
raises; it returns `none` exactly when there are no candidates, and
otherwise a record whose `(file, time)` pair is one of the candidates and
whose time is maximal among them.  An unreadable candidate, by contrast,
raises out of the poll (see the counterexample). -/
theorem c5_poll_latest_of_readable (historyPath : List Char)
    (hres : Option Nat) (pfiles : List (List Char × Nat)) :
    (candsOf historyPath hres pfiles = [] →
      get_latest_modification_time (hres.map Except.ok) historyPath
        (pfiles.map fun p => (p.1, Except.ok p.2)) = Except.ok none)
  ∧ (∀ t f pf,
      get_latest_modification_time (hres.map Except.ok) historyPath
        (pfiles.map fun p => (p.1, Except.ok p.2))
        = Except.ok (some (t, f, pf)) →
      (f, t) ∈ candsOf historyPath hres pfiles
        ∧ ∀ c ∈ candsOf historyPath hres pfiles, c.2 ≤ t)
  ∧ (candsOf historyPath hres pfiles ≠ [] →
      ∃ t f pf,
        get_latest_modification_time (hres.map Except.ok) historyPath
          (pfiles.map fun p => (p.1, Except.ok p.2))
          = Except.ok (some (t, f, pf))) := by
  obtain ⟨acc1, hh, hinv1⟩ := historyStep_ok_inv historyPath hres
  obtain ⟨acc2, hscan, hinv2⟩ := scanProjects_ok pfiles acc1 _ hinv1
  have hgl : get_latest_modification_time (hres.map Except.ok) historyPath
      (pfiles.map fun p => (p.1, Except.ok p.2))
      = match acc2.latest_time, acc2.latest_file with
        | some t, some f => Except.ok (some (t, f, acc2.latest_project_file))
        | _, _ => Except.ok none := by
    unfold get_latest_modification_time
    rw [hh]
    change (match scanProjects acc1
        (pfiles.map fun p => (p.1, Except.ok p.2)) with
      | Except.error e => Except.error e
      | Except.ok acc =>
        match acc.latest_time, acc.latest_file with
        | some t, some f => Except.ok (some (t, f, acc.latest_project_file))
        | _, _ => Except.ok none) = _
    rw [hscan]
  have hcands : ((match hres with
      | none => ([] : List (List Char × Nat))
      | some m => [(historyPath, m)]) ++ pfiles)
      = candsOf historyPath hres pfiles := rfl
  rw [hcands] at hinv2
  rcases hinv2 with ⟨ht, hf, hc⟩ | ⟨t0, f0, ht, hf, hmem, hbound⟩
  · rw [ht, hf] at hgl
    refine ⟨fun _ => hgl, ?_, fun hne => absurd hc hne⟩
    intro t f pf heq
    rw [hgl] at heq
    simp at heq
  · rw [ht, hf] at hgl
    refine ⟨?_, ?_, fun _ => ⟨t0, f0, acc2.latest_project_file, hgl⟩⟩
    · intro hc
      rw [hc] at hmem
      cases hmem
    · intro t f pf heq
      rw [hgl] at heq
      simp only [Except.ok.injEq, Option.some.injEq, Prod.mk.injEq] at heq
      obtain ⟨h1, h2, h3⟩ := heq
      subst h1
      subst h2
      exact ⟨hmem, hbound⟩

theorem c5_poll_latest_of_readable_witness :
    ("b".data, 3) ∈ candsOf "h".data none [("a".data, 1), ("b".data, 3)]
  ∧ ∀ c ∈ candsOf "h".data none [("a".data, 1), ("b".data, 3)], c.2 ≤ 3 :=
  (c5_poll_latest_of_readable "h".data none
    [("a".data, 1), ("b".data, 3)]).2.1 3 "b".data (some "b".data) rfl
